import Mathlib

/-!
Verification of the light-client update engine of `node_check` (`beacon.mjs`).

Byte buffers are modelled as `List Nat`; SHA-256 is an abstract parameter
`sha : Bytes → Bytes` (the code delegates it to the platform crypto library),
and `hash(...values)` is `sha` of the concatenation, exactly as the source
concatenates its arguments before digesting.  JavaScript runtime failures are
made explicit in an error type: `rangeError` for an out-of-bounds `DataView`
read, `typeError` for an operation on `undefined` (an out-of-range array
index), and `error` for an explicitly thrown `new Error(message)`.
-/

namespace NodeCheck

abbrev Bytes := List Nat

/-- JavaScript failure modes relevant to the checker: a `DataView` read past
the end of the buffer (`RangeError`), touching `undefined` (`TypeError`), and
an explicitly thrown `Error` with its message. -/
inductive JsError where
  | rangeError : String → JsError
  | typeError : String → JsError
  | error : String → JsError
deriving DecidableEq

/-- Source `hash(...values)`: SHA-256 over the concatenation of the byte inputs. -/
def hash (sha : Bytes → Bytes) (values : List Bytes) : Bytes :=
  sha values.flatten

/-- Source `hash_roots(roots)`: one pairwise round; the loop steps `i` by 2 and pads a
missing `roots[i + 1]` with 32 zero bytes (`roots[i + 1] || Buffer.alloc(32)`). -/
def hash_roots (sha : Bytes → Bytes) : List Bytes → List Bytes
  | [] => []
  | [x] => [hash sha [x, List.replicate 32 0]]
  | x :: y :: rest => hash sha [x, y] :: hash_roots sha rest

/-- Source `hash_key(key)`: `hash(key, Buffer.alloc(16))`, the 16-zero-byte pad. -/
def hash_key (sha : Bytes → Bytes) (key : Bytes) : Bytes :=
  hash sha [key, List.replicate 16 0]

/-- JavaScript `buffer.slice(start, end)`: clamps both bounds, never throws. -/
def jsSlice (b : Bytes) (s e : Nat) : Bytes :=
  (b.take e).drop s

/-- The element scan of `compare_buffers` (runs only when lengths match). -/
def compare_loop : Bytes → Bytes → Nat
  | a :: as, b :: bs => if a ≠ b then 1 else compare_loop as bs
  | _, _ => 0

/-- Source `compare_buffers(a, b)`: 1 on length mismatch, else 1 at the first unequal
byte, else 0. -/
def compare_buffers (a b : Bytes) : Nat :=
  if a.length ≠ b.length then 1 else compare_loop a b

/-- Source `split_bytes(bytes, len)`: `Math.ceil(length / len)` many slices of `len`. -/
def split_bytes (bytes : Bytes) (len : Nat) : List Bytes :=
  (List.range ((bytes.length + len - 1) / len)).map
    (fun i => jsSlice bytes (i * len) ((i + 1) * len))

/-- A `DataView.getUint32(pos, true)` read: little-endian 32-bit; throws a
`RangeError` when fewer than 4 bytes remain at `pos`. -/
def getUint32LE (b : Bytes) (pos : Nat) : Except JsError Nat :=
  if pos + 4 ≤ b.length then
    .ok (b.getD pos 0 + 256 * b.getD (pos + 1) 0 +
      65536 * b.getD (pos + 2) 0 + 16777216 * b.getD (pos + 3) 0)
  else
    .error (.rangeError "Offset is outside the bounds of the DataView")

structure SyncCommittee where
  pubkeys : List Bytes
  aggregate_pubkey : Bytes
deriving DecidableEq

structure LightClientUpdate where
  state_root : Bytes
  next_sync_committee : SyncCommittee
  next_sync_committee_branch : List Bytes
deriving DecidableEq

/-- Each `hash_roots` round halves the sequence length, rounding up. -/
theorem hash_roots_length (sha : Bytes → Bytes) :
    ∀ roots : List Bytes, (hash_roots sha roots).length = (roots.length + 1) / 2
  | [] => rfl
  | [_] => by simp [hash_roots]
  | _ :: _ :: rest => by
    simp [hash_roots, hash_roots_length sha rest]
    omega

/-- The `while (roots.length > 1) roots = hash_roots(roots)` loop of
`calculate_next_sync_committee_root`. -/
def reduce_loop (sha : Bytes → Bytes) (roots : List Bytes) : List Bytes :=
  if 1 < roots.length then reduce_loop sha (hash_roots sha roots) else roots
termination_by roots.length
decreasing_by
  simp [hash_roots_length]
  omega

/-- Source `calculate_next_sync_committee_root`: key-hash every pubkey, reduce to one
root, and hash it with the key-hash of the aggregate pubkey.  An empty pubkey
list leaves `roots[0]` as `undefined`, so hashing it raises a `TypeError`. -/
def calculate_next_sync_committee_root (sha : Bytes → Bytes)
    (next_sync_committee : SyncCommittee) : Except JsError Bytes :=
  match reduce_loop sha (next_sync_committee.pubkeys.map (hash_key sha)) with
  | [] => .error (.typeError "Cannot read properties of undefined")
  | r :: _ =>
    .ok (hash sha [r, hash_key sha next_sync_committee.aggregate_pubkey])

def ELECTRA_NEXT_SYNC_COMMITTEE_GINDEX : Nat := 87

/-- The `while (gindex > 1)` loop of `merkle_root_from_branch`, with the running
branch index `i`.  An index past the end of `branch` yields `undefined`, whose
hashing raises a `TypeError`. -/
def mrb_loop (sha : Bytes → Bytes) (gindex i : Nat) (branch : List Bytes)
    (root : Bytes) : Except JsError Bytes :=
  if 1 < gindex then
    match branch[i]? with
    | none => .error (.typeError "Cannot read properties of undefined")
    | some b =>
      mrb_loop sha (gindex / 2) (i + 1) branch
        (if gindex % 2 = 1 then hash sha [b, root] else hash sha [root, b])
  else .ok root
termination_by gindex
decreasing_by omega

/-- Source `merkle_root_from_branch(gindex, branch, leaf)`. -/
def merkle_root_from_branch (sha : Bytes → Bytes) (gindex : Nat)
    (branch : List Bytes) (leaf : Bytes) : Except JsError Bytes :=
  mrb_loop sha gindex 0 branch leaf

/-- Source `decode_ssz` of `check_lcu_ssz`: fixed part after the 4-byte offset field
(513 × 48 bytes of committee, 6 × 32 bytes of branch), then the two offset
reads delimiting the attested header, whose bytes 48..80 are the state root. -/
def decode_ssz (ssz_data : Bytes) : Except JsError LightClientUpdate := do
  let next_sync_committee := jsSlice ssz_data 4 (4 + 513 * 48)
  let next_sync_committee_branch :=
    jsSlice ssz_data (4 + 513 * 48) (4 + 513 * 48 + 6 * 32)
  let attested_header_offset ← getUint32LE ssz_data 0
  let attested_header_end_offset ← getUint32LE ssz_data (4 + 513 * 48 + 6 * 32)
  let attested_header := jsSlice ssz_data attested_header_offset attested_header_end_offset
  pure
    { state_root := jsSlice attested_header 48 (48 + 32)
      next_sync_committee :=
        { pubkeys := split_bytes (jsSlice next_sync_committee 0 (512 * 48)) 48
          aggregate_pubkey := jsSlice next_sync_committee (512 * 48) (513 * 48) }
      next_sync_committee_branch := split_bytes next_sync_committee_branch 32 }

/-- The outer-framing strip of `check_lcu_ssz`:
`decode_ssz(data.slice(12, 12 + view.getUint32(0, true)))`. -/
def decode_wrapped (data : Bytes) : Except JsError LightClientUpdate := do
  let len ← getUint32LE data 0
  decode_ssz (jsSlice data 12 (12 + len))

/-- The pure core of `check_lcu_ssz` on an already-fetched buffer: decode,
recompute the committee root, walk the branch from generalized index 87, and
compare with the decoded state root. -/
def check_lcu_ssz (sha : Bytes → Bytes) (data : Bytes) : Except JsError String := do
  let update ← decode_wrapped data
  let sync_root ← calculate_next_sync_committee_root sha update.next_sync_committee
  let state_root_calculated ← merkle_root_from_branch sha
    ELECTRA_NEXT_SYNC_COMMITTEE_GINDEX update.next_sync_committee_branch sync_root
  let state_root_expected := update.state_root
  if compare_buffers state_root_calculated state_root_expected ≠ 0 then
    Except.error (.error "State root mismatch")
  else pure "ok"

/-- One JSON-path update, at byte level (`fromHex` already applied): the
committee, the branch, and `attested_header.beacon.state_root`. -/
structure JsonUpdate where
  next_sync_committee : SyncCommittee
  next_sync_committee_branch : List Bytes
  attested_header_state_root : Bytes
deriving DecidableEq

/-- The per-period computation of `check_lcu_json`: committee root, then the
branch walk from generalized index 87. -/
def period_root_calc (sha : Bytes → Bytes) (data : JsonUpdate) :
    Except JsError Bytes := do
  let sync_root ← calculate_next_sync_committee_root sha data.next_sync_committee
  merkle_root_from_branch sha ELECTRA_NEXT_SYNC_COMMITTEE_GINDEX
    data.next_sync_committee_branch sync_root

/-- The `for (let i = 0; i < 21; i++)` loop of `check_lcu_json`; `fetch` stands
for the transport call at `start_period = period - i`. -/
def check_lcu_json_loop (sha : Bytes → Bytes) (fetch : Int → JsonUpdate)
    (period : Int) (i : Nat) : Except JsError String :=
  if i < 21 then do
    let data := fetch (period - (i : Int))
    let sync_root ← calculate_next_sync_committee_root sha data.next_sync_committee
    let state_root_calculated ← merkle_root_from_branch sha
      ELECTRA_NEXT_SYNC_COMMITTEE_GINDEX data.next_sync_committee_branch sync_root
    let state_root_expected := data.attested_header_state_root
    if compare_buffers state_root_calculated state_root_expected ≠ 0 then
      Except.error (.error
        ("Invalid Merkle Proof : State root mismatch (i: " ++ toString i ++ ")"))
    else check_lcu_json_loop sha fetch period (i + 1)
  else pure "ok"
termination_by 21 - i
decreasing_by omega

/-- Source `check_lcu_json` on an abstract transport. -/
def check_lcu_json (sha : Bytes → Bytes) (fetch : Int → JsonUpdate)
    (period : Int) : Except JsError String :=
  check_lcu_json_loop sha fetch period 0

/-! ## Specification-side definitions

These follow the spec's wording and are compared against the source-derived
definitions above. -/

/-- The number of right-shift steps taking a generalized index down to 1
(spec §4.3: "Terminate when `generalized_index == 1`"). -/
def shift_steps (g : Nat) : Nat :=
  if 1 < g then shift_steps (g / 2) + 1 else 0
termination_by g
decreasing_by omega

/-- The fold of spec §4.3: start from the leaf and, while the index exceeds 1,
combine with the next branch element on the side the parity dictates. -/
def merkleFoldSpec (sha : Bytes → Bytes) (g : Nat) (branch : List Bytes)
    (root : Bytes) : Bytes :=
  if 1 < g then
    merkleFoldSpec sha (g / 2) branch.tail
      (if g % 2 = 1 then hash sha [branch.headD [], root]
       else hash sha [root, branch.headD []])
  else root
termination_by g
decreasing_by omega

/-- The binary Merkle root of a `2 ^ d`-leaf list, as a recursive tree split —
the spec's "standard binary Merkle reduction over a power-of-two-sized list". -/
def merkle_pow2_root (sha : Bytes → Bytes) : Nat → List Bytes → Bytes
  | 0, l => l.headD []
  | d + 1, l =>
    hash sha [merkle_pow2_root sha d (l.take (2 ^ d)),
      merkle_pow2_root sha d (l.drop (2 ^ d))]

/-- One reducer round as the spec words it (§4.2): the `i`-th output is
`hash(roots[2i], roots[2i+1] ?? zero_32_bytes)` for `i` below `⌈len/2⌉`. -/
def hash_roots_round_spec (sha : Bytes → Bytes) (roots : List Bytes) : List Bytes :=
  (List.range ((roots.length + 1) / 2)).map (fun i =>
    hash sha [roots.getD (2 * i) [],
      if 2 * i + 1 < roots.length then roots.getD (2 * i + 1) []
      else List.replicate 32 0])

/-- Little-endian 32-bit encoding, for constructing test payloads. -/
def le32 (n : Nat) : Bytes :=
  [n % 256, n / 256 % 256, n / 65536 % 256, n / 16777216 % 256]

/-- A concrete stand-in digest function for evaluating witnesses. -/
def sha0 : Bytes → Bytes := fun _ => List.replicate 32 0

/-! ## Helper lemmas -/

theorem jsSlice_eq_drop_take (b : Bytes) (s e : Nat) :
    jsSlice b s e = (b.drop s).take (e - s) := by
  simp [jsSlice, List.drop_take]

theorem compare_loop_eq_zero :
    ∀ a b : Bytes, a.length = b.length → (compare_loop a b = 0 ↔ a = b)
  | [], [] => by simp [compare_loop]
  | [], _ :: _ => by intro h; simp at h
  | _ :: _, [] => by intro h; simp at h
  | x :: xs, y :: ys => by
    intro h
    simp only [List.length_cons, Nat.add_right_cancel_iff] at h
    by_cases hxy : x = y
    · subst hxy
      simpa [compare_loop] using compare_loop_eq_zero xs ys h
    · simp [compare_loop, hxy]

theorem compare_buffers_eq_zero (a b : Bytes) : compare_buffers a b = 0 ↔ a = b := by
  unfold compare_buffers
  by_cases h : a.length = b.length
  · simpa [h] using compare_loop_eq_zero a b h
  · rw [if_pos h]
    constructor
    · intro hc; exact absurd hc one_ne_zero
    · intro he; exact absurd (congrArg List.length he) h

theorem shift_steps_exit {g : Nat} (h : ¬ 1 < g) : shift_steps g = 0 := by
  unfold shift_steps; simp [h]

theorem shift_steps_step {g : Nat} (h : 1 < g) : shift_steps g = shift_steps (g / 2) + 1 := by
  conv_lhs => rw [shift_steps]
  simp [h]

theorem shift_steps_87 : shift_steps ELECTRA_NEXT_SYNC_COMMITTEE_GINDEX = 6 := by
  simp [ELECTRA_NEXT_SYNC_COMMITTEE_GINDEX, shift_steps]

theorem mrb_loop_exit (sha : Bytes → Bytes) (g i : Nat) (branch : List Bytes)
    (root : Bytes) (h : ¬ 1 < g) : mrb_loop sha g i branch root = .ok root := by
  unfold mrb_loop; simp [h]

theorem mrb_loop_step (sha : Bytes → Bytes) (g i : Nat) (branch : List Bytes)
    (root b : Bytes) (h : 1 < g) (hb : branch[i]? = some b) :
    mrb_loop sha g i branch root
      = mrb_loop sha (g / 2) (i + 1) branch
          (if g % 2 = 1 then hash sha [b, root] else hash sha [root, b]) := by
  conv_lhs => rw [mrb_loop]
  simp [h, hb]

theorem mrb_loop_oob (sha : Bytes → Bytes) (g i : Nat) (branch : List Bytes)
    (root : Bytes) (h : 1 < g) (hb : branch[i]? = none) :
    mrb_loop sha g i branch root
      = .error (.typeError "Cannot read properties of undefined") := by
  conv_lhs => rw [mrb_loop]
  simp [h, hb]

theorem reduce_loop_step (sha : Bytes → Bytes) (l : List Bytes)
    (h : 1 < l.length) : reduce_loop sha l = reduce_loop sha (hash_roots sha l) := by
  conv_lhs => rw [reduce_loop]
  simp [h]

theorem reduce_loop_exit (sha : Bytes → Bytes) (l : List Bytes)
    (h : ¬ 1 < l.length) : reduce_loop sha l = l := by
  unfold reduce_loop; simp [h]

/-- The branch walk, started at index `i` with enough branch elements left,
computes the spec fold over the remaining branch. -/
theorem mrb_loop_eq_fold (sha : Bytes → Bytes) :
    ∀ (g i : Nat) (branch : List Bytes) (root : Bytes),
      i + shift_steps g ≤ branch.length →
      mrb_loop sha g i branch root = .ok (merkleFoldSpec sha g (branch.drop i) root) := by
  intro g
  induction g using Nat.strong_induction_on with
  | _ g ih =>
    intro i branch root hlen
    by_cases hg : 1 < g
    · have hs : shift_steps g = shift_steps (g / 2) + 1 := shift_steps_step hg
      have hi : i < branch.length := by omega
      have hb : branch[i]? = some branch[i] := List.getElem?_eq_getElem hi
      have hhead : (branch.drop i).headD [] = branch[i] := by
        rw [List.headD_eq_head?_getD, List.head?_drop, hb]
        rfl
      rw [mrb_loop_step sha g i branch root branch[i] hg hb,
        ih (g / 2) (by omega) (i + 1) branch _ (by omega)]
      have hrhs : merkleFoldSpec sha g (branch.drop i) root
          = merkleFoldSpec sha (g / 2) (branch.drop (i + 1))
              (if g % 2 = 1 then hash sha [branch[i], root]
               else hash sha [root, branch[i]]) := by
        conv_lhs => rw [merkleFoldSpec]
        rw [if_pos hg, List.tail_drop, hhead]
      rw [hrhs]
    · rw [mrb_loop_exit sha g i branch root hg]
      conv_rhs => rw [merkleFoldSpec]
      rw [if_neg hg]

/-- The branch walk, started at index `i` with too few branch elements left,
runs off the end of the branch and raises the `TypeError`. -/
theorem mrb_loop_short (sha : Bytes → Bytes) :
    ∀ (g i : Nat) (branch : List Bytes) (root : Bytes),
      i ≤ branch.length → branch.length < i + shift_steps g →
      mrb_loop sha g i branch root
        = .error (.typeError "Cannot read properties of undefined") := by
  intro g
  induction g using Nat.strong_induction_on with
  | _ g ih =>
    intro i branch root hle hlen
    by_cases hg : 1 < g
    · have hs : shift_steps g = shift_steps (g / 2) + 1 := shift_steps_step hg
      by_cases hi : i < branch.length
      · have hb : branch[i]? = some branch[i] := List.getElem?_eq_getElem hi
        rw [mrb_loop_step sha g i branch root branch[i] hg hb]
        exact ih (g / 2) (by omega) (i + 1) branch _ (by omega) (by omega)
      · have hb : branch[i]? = none := by
          rw [List.getElem?_eq_none_iff]
          omega
        exact mrb_loop_oob sha g i branch root hg hb
    · rw [shift_steps_exit hg] at hlen
      omega

/-- A reducer round distributes over an append at an even boundary. -/
theorem hash_roots_append (sha : Bytes → Bytes) :
    ∀ (a b : List Bytes), a.length % 2 = 0 →
      hash_roots sha (a ++ b) = hash_roots sha a ++ hash_roots sha b
  | [], _, _ => rfl
  | [_], _, h => by simp at h
  | x :: y :: rest, b, h => by
    have h2 : rest.length % 2 = 0 := by simp at h; omega
    simp only [List.cons_append, hash_roots]
    exact congrArg (hash sha [x, y] :: ·) (hash_roots_append sha rest b h2)

/-- One reducer round absorbs one level of the power-of-two tree root. -/
theorem merkle_pow2_root_hash_roots (sha : Bytes → Bytes) :
    ∀ (d : Nat) (l : List Bytes), l.length = 2 ^ (d + 1) →
      merkle_pow2_root sha d (hash_roots sha l) = merkle_pow2_root sha (d + 1) l := by
  intro d
  induction d with
  | zero =>
    intro l hl
    match l, hl with
    | [x, y], _ => rfl
  | succ d ih =>
    intro l hl
    have hpow : 2 ^ (d + 2) = 2 ^ (d + 1) + 2 ^ (d + 1) := Nat.two_pow_succ (d + 1)
    have hpow' : 2 ^ (d + 1) = 2 ^ d + 2 ^ d := Nat.two_pow_succ d
    have hta : (l.take (2 ^ (d + 1))).length = 2 ^ (d + 1) := by
      rw [List.length_take]; omega
    have hdb : (l.drop (2 ^ (d + 1))).length = 2 ^ (d + 1) := by
      rw [List.length_drop]; omega
    have hsplitr : hash_roots sha l
        = hash_roots sha (l.take (2 ^ (d + 1))) ++ hash_roots sha (l.drop (2 ^ (d + 1))) := by
      rw [← hash_roots_append sha _ _ (by rw [hta]; omega), List.take_append_drop]
    have hlta : (hash_roots sha (l.take (2 ^ (d + 1)))).length = 2 ^ d := by
      rw [hash_roots_length, hta]; omega
    have htaked : (hash_roots sha l).take (2 ^ d) = hash_roots sha (l.take (2 ^ (d + 1))) := by
      rw [hsplitr, List.take_left' hlta]
    have hdropd : (hash_roots sha l).drop (2 ^ d) = hash_roots sha (l.drop (2 ^ (d + 1))) := by
      rw [hsplitr, List.drop_left' hlta]
    show hash sha [merkle_pow2_root sha d ((hash_roots sha l).take (2 ^ d)),
        merkle_pow2_root sha d ((hash_roots sha l).drop (2 ^ d))]
      = merkle_pow2_root sha (d + 2) l
    rw [htaked, hdropd, ih _ hta, ih _ hdb]
    rfl

/-- On a `2 ^ d`-element list the reduction loop runs to a single root: the
power-of-two tree root. -/
theorem reduce_loop_pow2 (sha : Bytes → Bytes) :
    ∀ (d : Nat) (l : List Bytes), l.length = 2 ^ d →
      reduce_loop sha l = [merkle_pow2_root sha d l] := by
  intro d
  induction d with
  | zero =>
    intro l hl
    match l, hl with
    | [x], _ => rw [reduce_loop_exit sha _ (by simp)]; rfl
  | succ d ih =>
    intro l hl
    have h2 : 1 < l.length := by
      rw [hl]
      have := Nat.one_lt_two_pow_iff.mpr (Nat.succ_ne_zero d)
      omega
    rw [reduce_loop_step sha l h2,
      ih _ (by rw [hash_roots_length, hl]; omega),
      merkle_pow2_root_hash_roots sha d l hl]

/-- Iterating the reducer `d` times on a `2 ^ d`-element list reaches the
singleton holding the power-of-two tree root. -/
theorem iterate_hash_roots_pow2 (sha : Bytes → Bytes) :
    ∀ (d : Nat) (l : List Bytes), l.length = 2 ^ d →
      (hash_roots sha)^[d] l = [merkle_pow2_root sha d l] := by
  intro d
  induction d with
  | zero =>
    intro l hl
    match l, hl with
    | [x], _ => rfl
  | succ d ih =>
    intro l hl
    rw [Function.iterate_succ_apply,
      ih _ (by rw [hash_roots_length, hl]; omega),
      merkle_pow2_root_hash_roots sha d l hl]

/-- The reducer round computes exactly the spec's indexed description. -/
theorem hash_roots_round_aux (sha : Bytes → Bytes) :
    ∀ l : List Bytes, hash_roots sha l = hash_roots_round_spec sha l
  | [] => by simp [hash_roots, hash_roots_round_spec]
  | [x] => by simp [hash_roots, hash_roots_round_spec, List.range_succ]
  | x :: y :: rest => by
    have ih := hash_roots_round_aux sha rest
    have hlen : ((x :: y :: rest).length + 1) / 2 = (rest.length + 1) / 2 + 1 := by
      simp
      omega
    have hfun : ((fun i => hash sha [(x :: y :: rest).getD (2 * i) [],
          if 2 * i + 1 < (x :: y :: rest).length then (x :: y :: rest).getD (2 * i + 1) []
          else List.replicate 32 0]) ∘ Nat.succ)
        = (fun i => hash sha [rest.getD (2 * i) [],
            if 2 * i + 1 < rest.length then rest.getD (2 * i + 1) []
            else List.replicate 32 0]) := by
      funext i
      show hash sha [(x :: y :: rest).getD (2 * (i + 1)) [], _] = _
      have hgd : (x :: y :: rest).getD (2 * (i + 1)) [] = rest.getD (2 * i) [] := by
        have h1 : 2 * (i + 1) = 2 * i + 1 + 1 := by ring
        rw [h1, List.getD_cons_succ, List.getD_cons_succ]
      have hgd1 : (x :: y :: rest).getD (2 * (i + 1) + 1) [] = rest.getD (2 * i + 1) [] := by
        have h1 : 2 * (i + 1) + 1 = 2 * i + 1 + 1 + 1 := by ring
        rw [h1, List.getD_cons_succ, List.getD_cons_succ]
      by_cases hcond : 2 * i + 1 < rest.length
      · rw [if_pos (by simp; omega), if_pos hcond, hgd, hgd1]
      · rw [if_neg (by simp; omega), if_neg hcond, hgd]
    show hash sha [x, y] :: hash_roots sha rest = _
    rw [ih]
    unfold hash_roots_round_spec
    rw [hlen, List.range_succ_eq_map, List.map_cons, List.map_map, hfun]
    have hc : 2 * 0 + 1 < (x :: y :: rest).length := by simp
    rw [if_pos hc]
    rfl

/-- Concatenating chunks of a uniform length multiplies the length out. -/
theorem flatten_length_uniform :
    ∀ (chunks : List Bytes) (n : Nat), (∀ c ∈ chunks, c.length = n) →
      chunks.flatten.length = chunks.length * n
  | [], _, _ => by simp
  | c :: cs, n, h => by
    have hc : c.length = n := h c (List.mem_cons_self c cs)
    have ih := flatten_length_uniform cs n (fun d hd => h d (List.mem_cons_of_mem c hd))
    simp [hc, ih]
    ring

/-- Splitting peels one full-length chunk off the front of a concatenation. -/
theorem split_bytes_cons (n : Nat) (hn : 0 < n) (c : Bytes) (hc : c.length = n)
    (rest : Bytes) : split_bytes (c ++ rest) n = c :: split_bytes rest n := by
  unfold split_bytes
  have hlen : ((c ++ rest).length + n - 1) / n = (rest.length + n - 1) / n + 1 := by
    have h1 : (c ++ rest).length + n - 1 = rest.length + n - 1 + n := by
      simp [hc]; omega
    rw [h1, Nat.add_div_right _ hn]
  have hfun : ((fun i => jsSlice (c ++ rest) (i * n) ((i + 1) * n)) ∘ Nat.succ)
      = (fun i => jsSlice rest (i * n) ((i + 1) * n)) := by
    funext i
    show jsSlice (c ++ rest) ((i + 1) * n) ((i + 1 + 1) * n) = jsSlice rest (i * n) ((i + 1) * n)
    rw [jsSlice_eq_drop_take, jsSlice_eq_drop_take]
    have hdrop : (c ++ rest).drop ((i + 1) * n) = rest.drop (i * n) := by
      have h1 : (i + 1) * n = c.length + i * n := by rw [hc]; ring
      rw [h1, List.drop_append]
    rw [hdrop]
    congr 1
    have h2 : (i + 1 + 1) * n = (i + 1) * n + n := by ring
    have h3 : (i + 1) * n = i * n + n := by ring
    omega
  rw [hlen, List.range_succ_eq_map, List.map_cons, List.map_map, hfun]
  have hhead : jsSlice (c ++ rest) (0 * n) ((0 + 1) * n) = c := by
    rw [jsSlice_eq_drop_take]
    simp only [Nat.zero_mul, Nat.zero_add, Nat.one_mul, List.drop_zero, Nat.sub_zero]
    rw [← hc, List.take_left]
  rw [hhead]

/-- Splitting the concatenation of uniform chunks recovers the chunks. -/
theorem split_bytes_flatten (n : Nat) (hn : 0 < n) :
    ∀ chunks : List Bytes, (∀ c ∈ chunks, c.length = n) →
      split_bytes chunks.flatten n = chunks
  | [], _ => by
    simp [split_bytes, Nat.div_eq_of_lt (by omega : n - 1 < n)]
  | c :: cs, h => by
    rw [List.flatten_cons,
      split_bytes_cons n hn c (h c (List.mem_cons_self c cs)) cs.flatten,
      split_bytes_flatten n hn cs (fun d hd => h d (List.mem_cons_of_mem c hd))]

/-- Reading 4 bytes little-endian at the seam of an append recovers the
encoded 32-bit value. -/
theorem getUint32LE_le32 (pre rest : Bytes) (n : Nat) (h : n < 4294967296) :
    getUint32LE (pre ++ (le32 n ++ rest)) pre.length = .ok n := by
  unfold getUint32LE
  have hlen : pre.length + 4 ≤ (pre ++ (le32 n ++ rest)).length := by
    simp [le32]
  rw [if_pos hlen]
  have g0 : (pre ++ (le32 n ++ rest)).getD pre.length 0 = n % 256 := by
    rw [List.getD_append_right _ _ _ _ (Nat.le_refl _), Nat.sub_self]
    rfl
  have g1 : (pre ++ (le32 n ++ rest)).getD (pre.length + 1) 0 = n / 256 % 256 := by
    rw [List.getD_append_right _ _ _ _ (by omega), Nat.add_sub_cancel_left]
    rfl
  have g2 : (pre ++ (le32 n ++ rest)).getD (pre.length + 2) 0 = n / 65536 % 256 := by
    rw [List.getD_append_right _ _ _ _ (by omega), Nat.add_sub_cancel_left]
    rfl
  have g3 : (pre ++ (le32 n ++ rest)).getD (pre.length + 3) 0 = n / 16777216 % 256 := by
    rw [List.getD_append_right _ _ _ _ (by omega), Nat.add_sub_cancel_left]
    rfl
  rw [g0, g1, g2, g3]
  congr 1
  omega

theorem ok_bind {α β : Type} (a : α) (f : α → Except JsError β) :
    (Except.ok a >>= f) = f a := rfl

theorem error_bind {α β : Type} (e : JsError) (f : α → Except JsError β) :
    ((Except.error e : Except JsError α) >>= f) = .error e := rfl

theorem except_bind_eq_ok {α β : Type} (a : Except JsError α)
    (f : α → Except JsError β) (b : β) :
    (a >>= f) = .ok b ↔ ∃ x, a = .ok x ∧ f x = .ok b := by
  cases a with
  | error e => simp [error_bind]
  | ok x => simp [ok_bind]

/-! ## Claims -/

/-- C2: for every generalized index `g ≥ 1` and every branch with at least as
many elements as there are right-shift steps from `g` down to 1,
`merkle_root_from_branch` computes exactly the spec's fold: start from the
leaf and, while `g > 1`, combine with the next branch element on the left when
`g` is odd and on the right when `g` is even, shifting `g` right each step. -/
theorem merkle_root_from_branch_eq_fold (sha : Bytes → Bytes) (g : Nat)
    (branch : List Bytes) (leaf : Bytes) (h1 : 1 ≤ g)
    (h2 : shift_steps g ≤ branch.length) :
    merkle_root_from_branch sha g branch leaf
      = .ok (merkleFoldSpec sha g branch leaf) := by
  have h := mrb_loop_eq_fold sha g 0 branch leaf (by omega)
  simpa [merkle_root_from_branch] using h

/-- C2 witness: the fold equality evaluated at generalized index 87 on a
six-element branch. -/
theorem merkle_root_from_branch_eq_fold_witness :
    1 ≤ 87 ∧ shift_steps 87 ≤ ([[1], [2], [3], [4], [5], [6]] : List Bytes).length ∧
    merkle_root_from_branch sha0 87 [[1], [2], [3], [4], [5], [6]] []
      = .ok (merkleFoldSpec sha0 87 [[1], [2], [3], [4], [5], [6]] []) :=
  ⟨by omega, by simp [shift_steps],
    merkle_root_from_branch_eq_fold sha0 87 [[1], [2], [3], [4], [5], [6]] []
      (by omega) (by simp [shift_steps])⟩

/-- C5 counterexample: on an empty branch with generalized index 87 the walk
fails with the generic JavaScript `TypeError` raised by hashing the
`undefined` branch element — not with a thrown decoding/verification
`Error` — refuting the claim's error category at a concrete input. -/
theorem merkle_root_short_branch_counterexample :
    merkle_root_from_branch sha0 87 [] []
      = .error (.typeError "Cannot read properties of undefined") := by
  have h := mrb_loop_short sha0 87 0 [] [] (by simp) (by simp [shift_steps])
  simpa [merkle_root_from_branch] using h

/-- C5 amended: for every generalized index and leaf, a branch with fewer
elements than the number of right-shift steps makes `merkle_root_from_branch`
fail — it never reads out of bounds — but the failure is the generic
`TypeError` from hashing the `undefined` element `branch[i]`, not a named
decoding/verification error. -/
theorem merkle_root_from_branch_short_branch (sha : Bytes → Bytes) (g : Nat)
    (branch : List Bytes) (leaf : Bytes) (h : branch.length < shift_steps g) :
    merkle_root_from_branch sha g branch leaf
      = .error (.typeError "Cannot read properties of undefined") := by
  have hs := mrb_loop_short sha g 0 branch leaf (by omega) (by omega)
  simpa [merkle_root_from_branch] using hs

/-- C5 witness: the amended statement evaluated on an empty branch at
generalized index 87. -/
theorem merkle_root_from_branch_short_branch_witness :
    ([] : List Bytes).length < shift_steps 87 ∧
    merkle_root_from_branch sha0 87 [] []
      = .error (.typeError "Cannot read properties of undefined") :=
  ⟨by simp [shift_steps],
    merkle_root_from_branch_short_branch sha0 87 [] [] (by simp [shift_steps])⟩

/-- C9: at the supported fork's generalized index 87 the walk performs exactly
six combine-and-shift steps, consuming exactly the first six branch elements
(any further elements are ignored), and the shift depth of 87 is 6. -/
theorem merkle_root_gindex87_six_steps (sha : Bytes → Bytes)
    (b0 b1 b2 b3 b4 b5 : Bytes) (rest : List Bytes) (leaf : Bytes) :
    merkle_root_from_branch sha ELECTRA_NEXT_SYNC_COMMITTEE_GINDEX
        (b0 :: b1 :: b2 :: b3 :: b4 :: b5 :: rest) leaf
      = .ok (hash sha [hash sha [b4, hash sha [hash sha [b2,
          hash sha [b1, hash sha [b0, leaf]]], b3]], b5])
    ∧ shift_steps ELECTRA_NEXT_SYNC_COMMITTEE_GINDEX = 6 := by
  constructor
  · simp [merkle_root_from_branch, ELECTRA_NEXT_SYNC_COMMITTEE_GINDEX, mrb_loop]
  · exact shift_steps_87

/-- C8: on every non-empty sequence, one reducer round produces exactly
`hash(roots[2i], roots[2i+1] ?? zero_32_bytes)` for each `i` below
`⌈len/2⌉` — pairing the unmatched last element of an odd-length sequence with
32 zero bytes — so odd input lengths are supported alongside even ones. -/
theorem hash_roots_one_round (sha : Bytes → Bytes) (l : List Bytes)
    (h : 0 < l.length) :
    hash_roots sha l = hash_roots_round_spec sha l
    ∧ (hash_roots sha l).length = (l.length + 1) / 2 :=
  ⟨hash_roots_round_aux sha l, hash_roots_length sha l⟩

/-- C8 witness: one round over an odd-length (three-element) sequence. -/
theorem hash_roots_one_round_witness :
    0 < ([[1], [2], [3]] : List Bytes).length ∧
    (hash_roots sha0 [[1], [2], [3]] = hash_roots_round_spec sha0 [[1], [2], [3]]
     ∧ (hash_roots sha0 [[1], [2], [3]]).length
        = (([[1], [2], [3]] : List Bytes).length + 1) / 2) :=
  ⟨by simp, hash_roots_one_round sha0 [[1], [2], [3]] (by simp)⟩

/-- C3: for a committee of 512 pubkeys, `calculate_next_sync_committee_root`
returns `hash(R, hash_key(aggregate_pubkey))` where `R` is the binary Merkle
reduction (the depth-9 power-of-two tree root) of the key-hashes of the
pubkeys in committee order, and `hash_key(v)` hashes `v` followed by 16 zero
bytes. -/
theorem calculate_next_sync_committee_root_spec (sha : Bytes → Bytes)
    (c : SyncCommittee) (h : c.pubkeys.length = 512) :
    calculate_next_sync_committee_root sha c
      = .ok (hash sha [merkle_pow2_root sha 9 (c.pubkeys.map (hash_key sha)),
          hash_key sha c.aggregate_pubkey])
    ∧ ∀ v : Bytes, hash_key sha v = sha (v ++ List.replicate 16 0) := by
  constructor
  · have hm : (c.pubkeys.map (hash_key sha)).length = 2 ^ 9 := by
      rw [List.length_map, h]
      norm_num
    unfold calculate_next_sync_committee_root
    rw [reduce_loop_pow2 sha 9 _ hm]
  · intro v
    simp [hash_key, hash]

/-- C3 witness: the committee-root shape evaluated on a 512-key committee. -/
theorem calculate_next_sync_committee_root_spec_witness :
    (SyncCommittee.mk (List.replicate 512 [0]) [1]).pubkeys.length = 512 ∧
    (calculate_next_sync_committee_root sha0 (SyncCommittee.mk (List.replicate 512 [0]) [1])
       = .ok (hash sha0 [merkle_pow2_root sha0 9
           ((SyncCommittee.mk (List.replicate 512 ([0] : Bytes)) [1]).pubkeys.map (hash_key sha0)),
           hash_key sha0 (SyncCommittee.mk (List.replicate 512 ([0] : Bytes)) [1]).aggregate_pubkey])
     ∧ ∀ v : Bytes, hash_key sha0 v = sha0 (v ++ List.replicate 16 0)) :=
  ⟨List.length_replicate 512 [0],
    calculate_next_sync_committee_root_spec sha0 _ (List.length_replicate 512 [0])⟩

/-- C10: each reducer round sends a sequence of length `n ≥ 2` to one of
length `⌈n/2⌉ < n`, so the reduction loop terminates; on a 512-key committee
it reaches a single root after exactly 9 rounds, and
`calculate_next_sync_committee_root` returns the hash of that root with the
aggregate key-hash. -/
theorem calculate_root_terminates_nine_rounds (sha : Bytes → Bytes)
    (c : SyncCommittee) (h : c.pubkeys.length = 512) :
    (∀ l : List Bytes, 2 ≤ l.length →
       (hash_roots sha l).length = (l.length + 1) / 2
       ∧ (hash_roots sha l).length < l.length)
    ∧ ((hash_roots sha)^[9] (c.pubkeys.map (hash_key sha))).length = 1
    ∧ calculate_next_sync_committee_root sha c
        = .ok (hash sha [((hash_roots sha)^[9] (c.pubkeys.map (hash_key sha))).headD [],
            hash_key sha c.aggregate_pubkey]) := by
  have hm : (c.pubkeys.map (hash_key sha)).length = 2 ^ 9 := by
    rw [List.length_map, h]
    norm_num
  have hit := iterate_hash_roots_pow2 sha 9 _ hm
  refine ⟨?_, ?_, ?_⟩
  · intro l hl
    refine ⟨hash_roots_length sha l, ?_⟩
    rw [hash_roots_length]
    omega
  · rw [hit]
    rfl
  · unfold calculate_next_sync_committee_root
    rw [reduce_loop_pow2 sha 9 _ hm, hit]
    rfl

/-- C10 witness: the termination bound and nine-round reduction evaluated on a
512-key committee. -/
theorem calculate_root_terminates_nine_rounds_witness :
    (SyncCommittee.mk (List.replicate 512 [2]) [3]).pubkeys.length = 512 ∧
    ((∀ l : List Bytes, 2 ≤ l.length →
       (hash_roots sha0 l).length = (l.length + 1) / 2
       ∧ (hash_roots sha0 l).length < l.length)
    ∧ ((hash_roots sha0)^[9]
        ((SyncCommittee.mk (List.replicate 512 ([2] : Bytes)) [3]).pubkeys.map (hash_key sha0))).length = 1
    ∧ calculate_next_sync_committee_root sha0 (SyncCommittee.mk (List.replicate 512 [2]) [3])
        = .ok (hash sha0 [((hash_roots sha0)^[9]
            ((SyncCommittee.mk (List.replicate 512 ([2] : Bytes)) [3]).pubkeys.map (hash_key sha0))).headD [],
            hash_key sha0 (SyncCommittee.mk (List.replicate 512 ([2] : Bytes)) [3]).aggregate_pubkey])) :=
  ⟨List.length_replicate 512 [2],
    calculate_root_terminates_nine_rounds sha0 _ (List.length_replicate 512 [2])⟩

/-- C1: on every supplied byte buffer, the binary check succeeds exactly when
decoding succeeds, both root computations succeed, and the recomputed state
root is byte-for-byte equal to the decoded one; and whenever the pipeline
yields a root different from the decoded state root, the check fails with the
named error `State root mismatch`. -/
theorem check_lcu_ssz_success_iff (sha : Bytes → Bytes) (data : Bytes) :
    (check_lcu_ssz sha data = .ok "ok" ↔
      ∃ u sync_root root, decode_wrapped data = .ok u
        ∧ calculate_next_sync_committee_root sha u.next_sync_committee = .ok sync_root
        ∧ merkle_root_from_branch sha ELECTRA_NEXT_SYNC_COMMITTEE_GINDEX
            u.next_sync_committee_branch sync_root = .ok root
        ∧ root = u.state_root)
    ∧ (∀ u sync_root root, decode_wrapped data = .ok u →
        calculate_next_sync_committee_root sha u.next_sync_committee = .ok sync_root →
        merkle_root_from_branch sha ELECTRA_NEXT_SYNC_COMMITTEE_GINDEX
          u.next_sync_committee_branch sync_root = .ok root →
        root ≠ u.state_root →
        check_lcu_ssz sha data = .error (.error "State root mismatch")) := by
  constructor
  · constructor
    · intro hok
      cases hd : decode_wrapped data with
      | error e => rw [check_lcu_ssz, hd, error_bind] at hok; exact absurd hok (by simp)
      | ok u =>
        cases hc : calculate_next_sync_committee_root sha u.next_sync_committee with
        | error e =>
          rw [check_lcu_ssz, hd, ok_bind, hc, error_bind] at hok
          exact absurd hok (by simp)
        | ok sr =>
          cases hm : merkle_root_from_branch sha ELECTRA_NEXT_SYNC_COMMITTEE_GINDEX
              u.next_sync_committee_branch sr with
          | error e =>
            rw [check_lcu_ssz, hd, ok_bind, hc, ok_bind, hm, error_bind] at hok
            exact absurd hok (by simp)
          | ok rt =>
            rw [check_lcu_ssz, hd, ok_bind, hc, ok_bind, hm, ok_bind] at hok
            by_cases hcmp : compare_buffers rt u.state_root ≠ 0
            · rw [if_pos hcmp] at hok
              exact absurd hok (by simp)
            · push_neg at hcmp
              exact ⟨u, sr, rt, rfl, hc, hm, (compare_buffers_eq_zero rt u.state_root).mp hcmp⟩
    · rintro ⟨u, sr, rt, hd, hc, hm, heq⟩
      rw [check_lcu_ssz, hd, ok_bind, hc, ok_bind, hm, ok_bind]
      have hcmp : compare_buffers rt u.state_root = 0 :=
        (compare_buffers_eq_zero rt u.state_root).mpr heq
      rw [if_neg (by omega)]
      rfl
  · intro u sr rt hd hc hm hne
    rw [check_lcu_ssz, hd, ok_bind, hc, ok_bind, hm, ok_bind]
    have hcmp : compare_buffers rt u.state_root ≠ 0 := fun h0 =>
      hne ((compare_buffers_eq_zero rt u.state_root).mp h0)
    rw [if_pos hcmp]

/-- C1 witness: the equivalence instantiated on the empty buffer (where both
sides are false: the first offset read already fails). -/
theorem check_lcu_ssz_success_iff_witness :
    (check_lcu_ssz sha0 [] = .ok "ok" ↔
      ∃ u sync_root root, decode_wrapped [] = .ok u
        ∧ calculate_next_sync_committee_root sha0 u.next_sync_committee = .ok sync_root
        ∧ merkle_root_from_branch sha0 ELECTRA_NEXT_SYNC_COMMITTEE_GINDEX
            u.next_sync_committee_branch sync_root = .ok root
        ∧ root = u.state_root)
    ∧ (∀ u sync_root root, decode_wrapped [] = .ok u →
        calculate_next_sync_committee_root sha0 u.next_sync_committee = .ok sync_root →
        merkle_root_from_branch sha0 ELECTRA_NEXT_SYNC_COMMITTEE_GINDEX
          u.next_sync_committee_branch sync_root = .ok root →
        root ≠ u.state_root →
        check_lcu_ssz sha0 [] = .error (.error "State root mismatch")) :=
  check_lcu_ssz_success_iff sha0 []

/-- C4 counterexample: on a 7-byte buffer — shorter than the 8 bytes the claim
says are validated — `decode_ssz` fails with the generic JavaScript
`RangeError` thrown by the raw `DataView` read, not with a descriptive
size/offset error, refuting the claimed validation at a concrete input. -/
theorem decode_ssz_short_buffer_counterexample :
    decode_ssz (List.replicate 7 0)
      = .error (.rangeError "Offset is outside the bounds of the DataView") := rfl

/-- C4 amended: `decode_ssz` performs no explicit bound validation at all.  A
buffer too short for the two raw 32-bit offset reads (shorter than 24824
bytes) fails with the generic `RangeError` of `DataView.getUint32`; on any
longer buffer decoding always succeeds — the attested-header offset is never
compared against the buffer length, out-of-range slices silently clamp. -/
theorem decode_ssz_no_bound_checks (b : Bytes) :
    (b.length < 4 + 513 * 48 + 6 * 32 + 4 →
      decode_ssz b = .error (.rangeError "Offset is outside the bounds of the DataView"))
    ∧ (4 + 513 * 48 + 6 * 32 + 4 ≤ b.length → ∃ u, decode_ssz b = .ok u) := by
  constructor
  · intro h
    by_cases h4 : b.length < 4
    · have h1 : getUint32LE b 0
          = .error (.rangeError "Offset is outside the bounds of the DataView") := by
        unfold getUint32LE
        rw [if_neg (by omega)]
      rw [decode_ssz, h1, error_bind]
    · have h1 : getUint32LE b 0 = .ok (b.getD 0 0 + 256 * b.getD 1 0 +
          65536 * b.getD 2 0 + 16777216 * b.getD 3 0) := by
        unfold getUint32LE
        rw [if_pos (by omega)]
      have h2 : getUint32LE b (4 + 513 * 48 + 6 * 32)
          = .error (.rangeError "Offset is outside the bounds of the DataView") := by
        unfold getUint32LE
        rw [if_neg (by omega)]
      rw [decode_ssz, h1, ok_bind, h2, error_bind]
  · intro h
    have h1 : getUint32LE b 0 = .ok (b.getD 0 0 + 256 * b.getD 1 0 +
        65536 * b.getD 2 0 + 16777216 * b.getD 3 0) := by
      unfold getUint32LE
      rw [if_pos (by omega)]
    have h2 : getUint32LE b (4 + 513 * 48 + 6 * 32) = .ok (b.getD (4 + 513 * 48 + 6 * 32) 0
        + 256 * b.getD (4 + 513 * 48 + 6 * 32 + 1) 0
        + 65536 * b.getD (4 + 513 * 48 + 6 * 32 + 2) 0
        + 16777216 * b.getD (4 + 513 * 48 + 6 * 32 + 3) 0) := by
      unfold getUint32LE
      rw [if_pos (by omega)]
    exact ⟨_, by rw [decode_ssz, h1, ok_bind, h2, ok_bind]; rfl⟩

/-- C4 witness: the amended behavior evaluated at the 7-byte buffer. -/
theorem decode_ssz_no_bound_checks_witness :
    (List.replicate 7 (0 : Nat)).length < 4 + 513 * 48 + 6 * 32 + 4 ∧
    decode_ssz (List.replicate 7 0)
      = .error (.rangeError "Offset is outside the bounds of the DataView") :=
  ⟨by decide, (decode_ssz_no_bound_checks (List.replicate 7 0)).1 (by decide)⟩

/-- A loop iteration whose proof verifies continues with the next period. -/
theorem check_lcu_json_loop_ok_step (sha : Bytes → Bytes) (fetch : Int → JsonUpdate)
    (period : Int) (i : Nat) (h : i < 21)
    (hcalc : period_root_calc sha (fetch (period - (i : Int)))
      = .ok ((fetch (period - (i : Int))).attested_header_state_root)) :
    check_lcu_json_loop sha fetch period i
      = check_lcu_json_loop sha fetch period (i + 1) := by
  obtain ⟨sr, hsr, hm⟩ := (except_bind_eq_ok _ _ _).mp hcalc
  conv_lhs => rw [check_lcu_json_loop]
  rw [if_pos h]
  simp only []
  rw [hsr, ok_bind, hm, ok_bind]
  have hz : compare_buffers (fetch (period - (i : Int))).attested_header_state_root
      (fetch (period - (i : Int))).attested_header_state_root = 0 :=
    (compare_buffers_eq_zero _ _).mpr rfl
  rw [if_neg (by omega)]

/-- A loop iteration whose recomputed root differs from the expected state
root stops with the error naming the offset `i`. -/
theorem check_lcu_json_loop_fail (sha : Bytes → Bytes) (fetch : Int → JsonUpdate)
    (period : Int) (i : Nat) (root : Bytes) (h : i < 21)
    (hcalc : period_root_calc sha (fetch (period - (i : Int))) = .ok root)
    (hne : root ≠ (fetch (period - (i : Int))).attested_header_state_root) :
    check_lcu_json_loop sha fetch period i
      = .error (.error
          ("Invalid Merkle Proof : State root mismatch (i: " ++ toString i ++ ")")) := by
  obtain ⟨sr, hsr, hm⟩ := (except_bind_eq_ok _ _ _).mp hcalc
  conv_lhs => rw [check_lcu_json_loop]
  rw [if_pos h]
  simp only []
  rw [hsr, ok_bind, hm, ok_bind]
  have hz : compare_buffers root (fetch (period - (i : Int))).attested_header_state_root ≠ 0 :=
    fun h0 => hne ((compare_buffers_eq_zero _ _).mp h0)
  rw [if_pos hz]

/-- C6: the JSON check walks the current period and the 20 prior ones; if the
periods before offset `j < 21` all verify and period `j` yields a recomputed
root different from its attested state root, the check fails with the error
naming offset `j` — and its outcome is unchanged under any transport that
agrees on offsets `0..j`, so periods past the first failure are never
consulted. -/
theorem check_lcu_json_fail_fast (sha : Bytes → Bytes) (fetch : Int → JsonUpdate)
    (period : Int) (j : Nat) (root : Bytes) (hj : j < 21)
    (hok : ∀ i : Nat, i < j → period_root_calc sha (fetch (period - (i : Int)))
      = .ok ((fetch (period - (i : Int))).attested_header_state_root))
    (hcalc : period_root_calc sha (fetch (period - (j : Int))) = .ok root)
    (hne : root ≠ (fetch (period - (j : Int))).attested_header_state_root) :
    check_lcu_json sha fetch period
      = .error (.error
          ("Invalid Merkle Proof : State root mismatch (i: " ++ toString j ++ ")"))
    ∧ ∀ fetch2 : Int → JsonUpdate,
        (∀ i : Nat, i ≤ j → fetch2 (period - (i : Int)) = fetch (period - (i : Int))) →
        check_lcu_json sha fetch2 period = check_lcu_json sha fetch period := by
  have reach : ∀ f2 : Int → JsonUpdate,
      (∀ i : Nat, i ≤ j → f2 (period - (i : Int)) = fetch (period - (i : Int))) →
      ∀ m k : Nat, k + m = j →
        check_lcu_json_loop sha f2 period k
          = .error (.error
              ("Invalid Merkle Proof : State root mismatch (i: " ++ toString j ++ ")")) := by
    intro f2 hagree m
    induction m with
    | zero =>
      intro k hk
      have hkj : k = j := by omega
      subst hkj
      have hf : f2 (period - (k : Int)) = fetch (period - (k : Int)) :=
        hagree k (Nat.le_refl k)
      exact check_lcu_json_loop_fail sha f2 period k root hj
        (by rw [hf]; exact hcalc) (by rw [hf]; exact hne)
    | succ m ih =>
      intro k hk
      have hf : f2 (period - (k : Int)) = fetch (period - (k : Int)) :=
        hagree k (by omega)
      rw [check_lcu_json_loop_ok_step sha f2 period k (by omega)
        (by rw [hf]; exact hok k (by omega))]
      exact ih (k + 1) (by omega)
  constructor
  · exact reach fetch (fun _ _ => rfl) j 0 (by omega)
  · intro f2 hagree
    rw [check_lcu_json, check_lcu_json,
      reach f2 hagree j 0 (by omega), reach fetch (fun _ _ => rfl) j 0 (by omega)]

/-- C6 witness: a transport whose every period serves a one-key committee with
a six-entry zero branch and attested state root `[1]` fails immediately at
offset 0, with the error naming `i = 0`. -/
theorem check_lcu_json_fail_fast_witness :
    (0 : Nat) < 21 ∧
    check_lcu_json sha0
        (fun _ => JsonUpdate.mk (SyncCommittee.mk [[5]] [6])
          [[0], [0], [0], [0], [0], [0]] [1]) 100
      = .error (.error
          ("Invalid Merkle Proof : State root mismatch (i: " ++ toString (0 : Nat) ++ ")")) := by
  have hcalc : period_root_calc sha0 (JsonUpdate.mk (SyncCommittee.mk [[5]] [6])
      [[0], [0], [0], [0], [0], [0]] [1]) = .ok (List.replicate 32 0) := by
    have h1 : calculate_next_sync_committee_root sha0 (SyncCommittee.mk [[5]] [6])
        = .ok (List.replicate 32 0) := by
      unfold calculate_next_sync_committee_root
      rw [reduce_loop_exit sha0 _ (by simp)]
      rfl
    have h2 : merkle_root_from_branch sha0 87 [[0], [0], [0], [0], [0], [0]]
        (List.replicate 32 0) = .ok (List.replicate 32 0) := by
      simp [merkle_root_from_branch, mrb_loop, sha0, hash]
    show (calculate_next_sync_committee_root sha0 (SyncCommittee.mk [[5]] [6]) >>= fun sr =>
      merkle_root_from_branch sha0 ELECTRA_NEXT_SYNC_COMMITTEE_GINDEX
        [[0], [0], [0], [0], [0], [0]] sr) = .ok (List.replicate 32 0)
    rw [h1, ok_bind]
    exact h2
  exact ⟨by decide,
    (check_lcu_json_fail_fast sha0
      (fun _ => JsonUpdate.mk (SyncCommittee.mk [[5]] [6])
        [[0], [0], [0], [0], [0], [0]] [1]) 100 0 (List.replicate 32 0)
      (by decide) (fun i hi => absurd hi (by omega)) hcalc (by decide)).1⟩

/-- Decoding a container with the documented inner layout: a 4-byte LE
offset (valued 24824), 513 × 48 bytes of committee data (512 keys then the
aggregate key), 6 × 32 bytes of branch, the 4-byte LE end offset, then the
attested header `H` running to the end of the container. -/
theorem decode_ssz_layout (keys : List Bytes) (agg : Bytes) (bs : List Bytes)
    (H : Bytes)
    (hk : keys.length = 512) (hke : ∀ k ∈ keys, k.length = 48)
    (ha : agg.length = 48)
    (hb : bs.length = 6) (hbe : ∀ c ∈ bs, c.length = 32)
    (hsz : 24824 + H.length < 4294967296) :
    decode_ssz (le32 24824 ++ ((keys.flatten ++ agg) ++
        (bs.flatten ++ (le32 (24824 + H.length) ++ H))))
      = .ok { state_root := jsSlice H 48 (48 + 32)
              next_sync_committee := { pubkeys := keys, aggregate_pubkey := agg }
              next_sync_committee_branch := bs } := by
  have h4 : (le32 24824).length = 4 := rfl
  have hkf : keys.flatten.length = 24576 := by
    rw [flatten_length_uniform keys 48 hke, hk]
  have hCl : (keys.flatten ++ agg).length = 24624 := by
    rw [List.length_append, hkf, ha]
  have hBl : bs.flatten.length = 192 := by
    rw [flatten_length_uniform bs 32 hbe, hb]
  have hcomm : jsSlice (le32 24824 ++ ((keys.flatten ++ agg) ++
      (bs.flatten ++ (le32 (24824 + H.length) ++ H)))) 4 (4 + 513 * 48)
      = keys.flatten ++ agg := by
    rw [jsSlice_eq_drop_take, List.drop_left' h4,
      show 4 + 513 * 48 - 4 = 24624 from by norm_num]
    exact List.take_left' hCl
  have hbr : jsSlice (le32 24824 ++ ((keys.flatten ++ agg) ++
      (bs.flatten ++ (le32 (24824 + H.length) ++ H)))) (4 + 513 * 48)
      (4 + 513 * 48 + 6 * 32) = bs.flatten := by
    rw [jsSlice_eq_drop_take,
      show 4 + 513 * 48 + 6 * 32 - (4 + 513 * 48) = 192 from by norm_num,
      ← List.append_assoc]
    have hpl : (le32 24824 ++ (keys.flatten ++ agg)).length = 4 + 513 * 48 := by
      rw [List.length_append, h4, hCl]
    rw [List.drop_left' hpl]
    exact List.take_left' hBl
  have hO : getUint32LE (le32 24824 ++ ((keys.flatten ++ agg) ++
      (bs.flatten ++ (le32 (24824 + H.length) ++ H)))) 0 = .ok 24824 := by
    simpa using getUint32LE_le32 []
      ((keys.flatten ++ agg) ++ (bs.flatten ++ (le32 (24824 + H.length) ++ H)))
      24824 (by norm_num)
  have hE : getUint32LE (le32 24824 ++ ((keys.flatten ++ agg) ++
      (bs.flatten ++ (le32 (24824 + H.length) ++ H)))) (4 + 513 * 48 + 6 * 32)
      = .ok (24824 + H.length) := by
    have hplen : ((le32 24824 ++ (keys.flatten ++ agg)) ++ bs.flatten).length
        = 4 + 513 * 48 + 6 * 32 := by
      simp [List.length_append, le32, hkf, ha, hBl]
    have h := getUint32LE_le32 ((le32 24824 ++ (keys.flatten ++ agg)) ++ bs.flatten)
      H (24824 + H.length) hsz
    rw [hplen] at h
    simpa [List.append_assoc] using h
  have hhdr : jsSlice (le32 24824 ++ ((keys.flatten ++ agg) ++
      (bs.flatten ++ (le32 (24824 + H.length) ++ H)))) 24824 (24824 + H.length)
      = H := by
    rw [jsSlice_eq_drop_take, Nat.add_sub_cancel_left,
      ← List.append_assoc, ← List.append_assoc, ← List.append_assoc]
    have hpl : (((le32 24824 ++ (keys.flatten ++ agg)) ++ bs.flatten) ++
        le32 (24824 + H.length)).length = 24824 := by
      simp [List.length_append, le32, hkf, ha, hBl]
    rw [List.drop_left' hpl, List.take_length]
  have hpk : split_bytes (jsSlice (keys.flatten ++ agg) 0 (512 * 48)) 48 = keys := by
    rw [jsSlice_eq_drop_take, List.drop_zero,
      show 512 * 48 - 0 = 24576 from by norm_num, ← hkf, List.take_left]
    exact split_bytes_flatten 48 (by norm_num) keys hke
  have hag : jsSlice (keys.flatten ++ agg) (512 * 48) (513 * 48) = agg := by
    rw [jsSlice_eq_drop_take,
      show 513 * 48 - 512 * 48 = 48 from by norm_num,
      show (512 * 48 : Nat) = keys.flatten.length from by norm_num [hkf],
      List.drop_left,
      show (48 : Nat) = agg.length from ha.symm, List.take_length]
  have hsb : split_bytes bs.flatten 32 = bs :=
    split_bytes_flatten 32 (by norm_num) bs hbe
  rw [decode_ssz, hO, ok_bind, hE, ok_bind]
  simp only [hcomm, hbr, hhdr, hpk, hag, hsb]
  rfl

/-- C7: decoding a wrapped payload — 4-byte LE outer length `L`, 8 further
framing bytes, then the `L`-byte inner container at byte 12 laid out as a
4-byte LE header offset, 513 × 48 bytes of committee data (512 keys then the
aggregate key), 6 × 32 bytes of branch, the LE end offset, and the attested
header whose bytes 48..80 hold the state root — yields a `LightClientUpdate`
whose 512 pubkeys, aggregate pubkey, 6 branch entries and 32-byte state root
are exactly the constructed input bytes. -/
theorem decode_wrapped_roundtrip (keys : List Bytes) (agg : Bytes)
    (bs : List Bytes) (hpre sr hpost w8 tl : Bytes)
    (hk : keys.length = 512) (hke : ∀ k ∈ keys, k.length = 48)
    (ha : agg.length = 48)
    (hb : bs.length = 6) (hbe : ∀ c ∈ bs, c.length = 32)
    (hh : hpre.length = 48) (hsr : sr.length = 32) (hw : w8.length = 8)
    (hsz : 24824 + (hpre ++ (sr ++ hpost)).length < 4294967296) :
    decode_wrapped
        (le32 (24824 + (hpre ++ (sr ++ hpost)).length) ++ (w8 ++
          ((le32 24824 ++ ((keys.flatten ++ agg) ++
            (bs.flatten ++ (le32 (24824 + (hpre ++ (sr ++ hpost)).length) ++
              (hpre ++ (sr ++ hpost)))))) ++ tl)))
      = .ok { state_root := sr
              next_sync_committee := { pubkeys := keys, aggregate_pubkey := agg }
              next_sync_committee_branch := bs } := by
  have hkf : keys.flatten.length = 24576 := by
    rw [flatten_length_uniform keys 48 hke, hk]
  have hBl : bs.flatten.length = 192 := by
    rw [flatten_length_uniform bs 32 hbe, hb]
  have hinner : (le32 24824 ++ ((keys.flatten ++ agg) ++
      (bs.flatten ++ (le32 (24824 + (hpre ++ (sr ++ hpost)).length) ++
        (hpre ++ (sr ++ hpost)))))).length
      = 24824 + (hpre ++ (sr ++ hpost)).length := by
    simp [List.length_append, le32, hkf, ha, hBl]
    omega
  have hread0 : getUint32LE
      (le32 (24824 + (hpre ++ (sr ++ hpost)).length) ++ (w8 ++
        ((le32 24824 ++ ((keys.flatten ++ agg) ++
          (bs.flatten ++ (le32 (24824 + (hpre ++ (sr ++ hpost)).length) ++
            (hpre ++ (sr ++ hpost)))))) ++ tl))) 0
      = .ok (24824 + (hpre ++ (sr ++ hpost)).length) := by
    simpa using getUint32LE_le32 []
      (w8 ++ ((le32 24824 ++ ((keys.flatten ++ agg) ++
        (bs.flatten ++ (le32 (24824 + (hpre ++ (sr ++ hpost)).length) ++
          (hpre ++ (sr ++ hpost)))))) ++ tl))
      (24824 + (hpre ++ (sr ++ hpost)).length) hsz
  have hstrip : jsSlice
      (le32 (24824 + (hpre ++ (sr ++ hpost)).length) ++ (w8 ++
        ((le32 24824 ++ ((keys.flatten ++ agg) ++
          (bs.flatten ++ (le32 (24824 + (hpre ++ (sr ++ hpost)).length) ++
            (hpre ++ (sr ++ hpost)))))) ++ tl)))
      12 (12 + (24824 + (hpre ++ (sr ++ hpost)).length))
      = le32 24824 ++ ((keys.flatten ++ agg) ++
          (bs.flatten ++ (le32 (24824 + (hpre ++ (sr ++ hpost)).length) ++
            (hpre ++ (sr ++ hpost))))) := by
    rw [jsSlice_eq_drop_take, Nat.add_sub_cancel_left,
      ← List.append_assoc (le32 (24824 + (hpre ++ (sr ++ hpost)).length)) w8]
    have hpl : (le32 (24824 + (hpre ++ (sr ++ hpost)).length) ++ w8).length = 12 := by
      simp [le32, hw]
    rw [List.drop_left' hpl]
    exact List.take_left' hinner
  have hsl : jsSlice (hpre ++ (sr ++ hpost)) 48 (48 + 32) = sr := by
    rw [jsSlice_eq_drop_take,
      show 48 + 32 - 48 = 32 from by norm_num,
      show (48 : Nat) = hpre.length from hh.symm,
      List.drop_left]
    exact List.take_left' hsr
  rw [decode_wrapped, hread0, ok_bind]
  rw [hstrip,
    decode_ssz_layout keys agg bs (hpre ++ (sr ++ hpost)) hk hke ha hb hbe hsz,
    hsl]

/-- C7 witness: the round trip evaluated on a concrete payload of 512 zero
keys, a zero aggregate key, six zero branch entries and a state root of 32
one-bytes. -/
theorem decode_wrapped_roundtrip_witness :
    (List.replicate 512 (List.replicate 48 (0 : Nat))).length = 512 ∧
    decode_wrapped
        (le32 (24824 + (List.replicate 48 (0 : Nat) ++ (List.replicate 32 1 ++ [])).length) ++
          (List.replicate 8 0 ++
          ((le32 24824 ++
            (((List.replicate 512 (List.replicate 48 (0 : Nat))).flatten ++ List.replicate 48 0) ++
            ((List.replicate 6 (List.replicate 32 (0 : Nat))).flatten ++
              (le32 (24824 + (List.replicate 48 (0 : Nat) ++ (List.replicate 32 1 ++ [])).length) ++
              (List.replicate 48 0 ++ (List.replicate 32 1 ++ [])))))) ++ [])))
      = .ok { state_root := List.replicate 32 1
              next_sync_committee :=
                { pubkeys := List.replicate 512 (List.replicate 48 0)
                  aggregate_pubkey := List.replicate 48 0 }
              next_sync_committee_branch := List.replicate 6 (List.replicate 32 0) } :=
  ⟨List.length_replicate 512 _,
    decode_wrapped_roundtrip (List.replicate 512 (List.replicate 48 0))
      (List.replicate 48 0) (List.replicate 6 (List.replicate 32 0))
      (List.replicate 48 0) (List.replicate 32 1) [] (List.replicate 8 0) []
      (List.length_replicate 512 _)
      (fun k hk => by rw [(List.mem_replicate.mp hk).2]; exact List.length_replicate 48 0)
      (List.length_replicate 48 0) (List.length_replicate 6 _)
      (fun c hc => by rw [(List.mem_replicate.mp hc).2]; exact List.length_replicate 32 0)
      (List.length_replicate 48 0) (List.length_replicate 32 1) (List.length_replicate 8 0)
      (by simp)⟩

end NodeCheck
